import Mathlib

/-
Verification of the pycuda memory-pool specification against the code.

The visible source file `src/wrapper/mempool.cpp` is the binding glue: it
instantiates `pycuda::memory_pool<Allocator>` and `pycuda::pooled_allocation`
(declared in `mempool.hpp`, which is not part of the visible sources) for a
context-bound device allocator and a context-free pinned-host allocator, and
exposes `allocate`, `free_held`, `stop_holding`, `bin_number`, `alloc_size`,
`held_blocks` and `active_blocks`.

The pool engine itself is therefore modelled from the specification
(sections 3, 4.2, 4.3, 4.4 and 8 of spec.md); the host-side binding logic
(`host_pool_allocate`, lines 144-183 of mempool.cpp) is embedded directly
from the source.

Blocks are identified by natural-number ids handed out by the backend.  The
backend is embedded into the pool state as a script of responses (one Bool
per backend allocate call; an exhausted script means success), together with
ghost counters recording the number of backend allocate calls, backend free
calls and pressure-relief hook invocations, which make the claims about
"no backend call", "exactly one retry" and "exactly one free per cached
block" stateable.
-/

namespace PycudaMempool

/-- Modelled from the spec: `alloc_size(bin)` (mempool.hpp, not in the visible
source) is the quantized size class backing bin `bin`; classes grow
geometrically ("e.g., doubling"), so bin `b` is backed by `2 ^ b` bytes. -/
def alloc_size (bin : Nat) : Nat := 2 ^ bin

/-- Modelled from the spec: `bin_number(s)` (mempool.hpp, not in the visible
source) maps a requested size to the least bin whose quantized size covers
it; with doubling size classes that is the ceiling base-2 logarithm. -/
def bin_number (s : Nat) : Nat := Nat.clog 2 s

/-- Modelled from the spec: the state of `pycuda::memory_pool` (mempool.hpp,
not in the visible source).  `freeList` is the per-bin cache flattened into
one list of (bin, block id) pairs, most recently freed first (pop takes the
first entry of the requested bin, so each bin behaves LIFO).  `holding` is
false once `stop_holding` switched the pool to pass-through mode.
`contextHeld` models the context keep-alive dependency of
`context_dependent_memory_pool` (acquired via `start_holding_blocks`,
released via `stop_holding_blocks`).  `responses` scripts the backend:
one Bool per backend allocate call, exhausted list meaning success.
`nextBlock` doubles as the count of blocks ever obtained from the backend;
`allocCalls`, `freeCalls` and `reliefCalls` are ghost counters of backend
allocate calls, backend free calls and pressure-relief hook invocations. -/
structure PoolState where
  freeList : List (Nat × Nat)
  active : Nat
  holding : Bool
  contextHeld : Bool
  responses : List Bool
  nextBlock : Nat
  allocCalls : Nat
  freeCalls : Nat
  reliefCalls : Nat
deriving DecidableEq

/-- `held_blocks`: number of cached (non-active) blocks. -/
def PoolState.held_blocks (s : PoolState) : Nat := s.freeList.length

/-- `active_blocks`: number of currently issued blocks. -/
def PoolState.active_blocks (s : PoolState) : Nat := s.active

/-- Pop the most recently freed block of bin `bin` from the cache, keeping
the remaining entries in order. -/
def popBin (bin : Nat) : List (Nat × Nat) → Option (Nat × List (Nat × Nat))
  | [] => none
  | (b, blk) :: rest =>
    if b = bin then some (blk, rest)
    else
      match popBin bin rest with
      | none => none
      | some (blk2, rest2) => some (blk2, (b, blk) :: rest2)

/-- One backend allocate call: consumes the head of the response script
(an exhausted script succeeds), bumps the call counter, and on success
hands out the next fresh block id. -/
def backend_allocate (s : PoolState) : Option Nat × PoolState :=
  match s.responses with
  | [] =>
    (some s.nextBlock,
      { s with allocCalls := s.allocCalls + 1, nextBlock := s.nextBlock + 1 })
  | true :: rest =>
    (some s.nextBlock,
      { s with responses := rest, allocCalls := s.allocCalls + 1,
               nextBlock := s.nextBlock + 1 })
  | false :: rest =>
    (none, { s with responses := rest, allocCalls := s.allocCalls + 1 })

/-- Modelled from the spec: `free_held()` (mempool.hpp, not in the visible
source) frees every cached block back to the backend (one backend free per
cached block) and releases the context dependency, since the pool then no
longer holds any block. -/
def free_held (s : PoolState) : PoolState :=
  { s with freeList := [], freeCalls := s.freeCalls + s.freeList.length,
           contextHeld := false }

/-- The pressure-relief hook (`device_allocator::try_release_blocks`, which
calls `pycuda::run_python_gc`): a fire-and-forget callback, modelled as a
ghost counter increment. -/
def run_relief_hook (s : PoolState) : PoolState :=
  { s with reliefCalls := s.reliefCalls + 1 }

/-- A `pooled_allocation` handle: the raw block, the bin it was served from,
and whether the handle still owns the block (`live` becomes false on the
single permitted release). -/
structure Handle where
  block : Nat
  bin : Nat
  live : Bool
deriving DecidableEq

/-- `size()`: the quantized size actually backing the allocation. -/
def Handle.size (h : Handle) : Nat := alloc_size h.bin

/-- Modelled from the spec: `memory_pool::allocate` (mempool.hpp, not in the
visible source).  Compute the bin; on a cache hit pop and reuse a block with
no backend call, recording `alloc_size bin` as the handle size; on a miss
call the backend; if that fails, reclaim (free every cached block, which
also releases the context dependency), run the pressure-relief hook, and
retry the backend exactly once; a second failure is OutOfResource,
returned as `none`.  A cache hit that empties the cache releases the
context dependency (the pool stops holding blocks). -/
def pool_allocate (s : PoolState) (sz : Nat) : Option Handle × PoolState :=
  match popBin (bin_number sz) s.freeList with
  | some (blk, rest) =>
    (some ⟨blk, bin_number sz, true⟩,
      if rest.isEmpty then
        { s with freeList := rest, active := s.active + 1, contextHeld := false }
      else
        { s with freeList := rest, active := s.active + 1 })
  | none =>
    match backend_allocate s with
    | (some blk, s1) =>
      (some ⟨blk, bin_number sz, true⟩, { s1 with active := s1.active + 1 })
    | (none, s1) =>
      match backend_allocate (run_relief_hook (free_held s1)) with
      | (some blk, s4) =>
        (some ⟨blk, bin_number sz, true⟩, { s4 with active := s4.active + 1 })
      | (none, s4) => (none, s4)

/-- Modelled from the spec: the pool side of releasing a block (mempool.hpp,
not in the visible source).  While holding, the block is cached at the front
of its bin and the context dependency is acquired if this is the first
cached block; in pass-through mode the block is freed to the backend
immediately. -/
def pool_free (s : PoolState) (bin blk : Nat) : PoolState :=
  if s.holding then
    { s with freeList := (bin, blk) :: s.freeList, active := s.active - 1,
             contextHeld := if s.freeList.isEmpty then true else s.contextHeld }
  else
    { s with freeCalls := s.freeCalls + 1, active := s.active - 1 }

/-- Modelled from the spec: `pooled_allocation::free` (mempool.hpp, not in
the visible source).  A live handle releases its block to the pool exactly
once and becomes dead; releasing a dead handle is a DoubleRelease error,
returned as `none` with no effect on the pool. -/
def handle_free (h : Handle) (s : PoolState) : Option (Handle × PoolState) :=
  if h.live then some ({ h with live := false }, pool_free s h.bin h.block)
  else none

/-- Modelled from the spec: `stop_holding()` (mempool.hpp, not in the
visible source) frees every currently cached block and irreversibly
switches the pool to pass-through mode. -/
def stop_holding (s : PoolState) : PoolState :=
  { s with freeList := [], freeCalls := s.freeCalls + s.freeList.length,
           contextHeld := false, holding := false }

/-- Whole-system state: the pool plus every handle it ever issued (live or
already released), so that release operations can be replayed in traces. -/
structure SysState where
  pool : PoolState
  handles : List Handle
deriving DecidableEq

/-- Operations a caller can perform on the pool. -/
inductive Op where
  | alloc (sz : Nat)
  | release (i : Nat)
  | freeHeld
  | stopHolding
deriving DecidableEq

/-- One observable operation.  `release i` frees the i-th issued handle;
a double release (or an out-of-range index) is rejected and leaves the
state unchanged. -/
def step (s : SysState) : Op → SysState
  | Op.alloc sz =>
    match pool_allocate s.pool sz with
    | (some h, p) => ⟨p, s.handles ++ [h]⟩
    | (none, p) => ⟨p, s.handles⟩
  | Op.release i =>
    match s.handles[i]? with
    | some h =>
      match handle_free h s.pool with
      | some (h2, p) => ⟨p, s.handles.set i h2⟩
      | none => s
    | none => s
  | Op.freeHeld => ⟨free_held s.pool, s.handles⟩
  | Op.stopHolding => ⟨stop_holding s.pool, s.handles⟩

/-- Run a sequence of operations. -/
def run (s : SysState) (ops : List Op) : SysState := ops.foldl step s

/-- A fresh pool: empty cache, no active blocks, holding mode, context
dependency not acquired, with `script` scripting the backend responses. -/
def init (script : List Bool) : SysState :=
  ⟨⟨[], 0, true, false, script, 0, 0, 0, 0⟩, []⟩

/-- Number of live (unreleased) handles. -/
def liveCount (hs : List Handle) : Nat := (hs.filter (fun h => h.live)).length

/-- The pool invariant: the active count equals the number of live handles;
cached plus active plus returned blocks account exactly for every block the
backend ever handed out; and the context dependency is held exactly while
the pool caches at least one block. -/
def Inv (s : SysState) : Prop :=
  s.pool.active = liveCount s.handles ∧
  s.pool.held_blocks + s.pool.active + s.pool.freeCalls = s.pool.nextBlock ∧
  (s.pool.contextHeld = true ↔ 0 < s.pool.held_blocks)

/-- The numpy memory-layout order specifier, as received by
`host_pool_allocate` after `PyArray_OrderConverter` (mempool.cpp line 163). -/
inductive NpyOrder where
  | corder
  | fortranorder
  | anyorder
  | keeporder
deriving DecidableEq

/-- The `NPY_CARRAY` flag set (value from the numpy headers; only its
distinctness matters here). -/
def NPY_CARRAY : Nat := 1

/-- The `NPY_FARRAY` flag set (value from the numpy headers; only its
distinctness matters here). -/
def NPY_FARRAY : Nat := 2

/-- The order-to-flags logic of `host_pool_allocate` (mempool.cpp lines
162-171): Fortran order selects `NPY_FARRAY`, C order selects `NPY_CARRAY`,
anything else throws "unrecognized order specifier". -/
def host_order_flags (order : NpyOrder) : Except String Nat :=
  if order = NpyOrder.fortranorder then Except.ok NPY_FARRAY
  else if order = NpyOrder.corder then Except.ok NPY_CARRAY
  else Except.error "unrecognized order specifier"

/-- Modelled from the spec: `pycuda::size_from_dims` (tools.hpp, not in the
visible source) — the number of elements described by an array shape, i.e.
the product of its dimensions. -/
def size_from_dims (dims : List Nat) : Nat := dims.foldl (fun a b => a * b) 1

/-- The request a successful `host_pool_allocate` makes of the pool: the
byte size passed to `pooled_host_allocation` and the numpy array flags. -/
structure HostAllocRequest where
  bytes : Nat
  flags : Nat
deriving DecidableEq

/-- `host_pool_allocate` (mempool.cpp lines 144-183), reduced to its
pool-facing behaviour: the pooled allocation is made with
`tp_descr->elsize * size_from_dims(dims)` bytes (line 160), where the size
reaching the pool is `host_allocator::size_type = unsigned int` (line 50),
so the product is truncated modulo `2 ^ 32`; an unrecognized order
specifier aborts the call with an error (lines 162-171; in the source the
freshly made allocation is then released by its `auto_ptr`, so no
allocation escapes a failed call). -/
def host_pool_allocate (elsize : Nat) (dims : List Nat) (order : NpyOrder) :
    Except String HostAllocRequest :=
  match host_order_flags order with
  | Except.error e => Except.error e
  | Except.ok f => Except.ok ⟨elsize * size_from_dims dims % 2 ^ 32, f⟩

/- ### Helper lemmas -/

theorem popBin_length {bin : Nat} :
    ∀ {l : List (Nat × Nat)} {blk : Nat} {rest : List (Nat × Nat)},
      popBin bin l = some (blk, rest) → rest.length + 1 = l.length := by
  intro l
  induction l with
  | nil => intro blk rest h; simp [popBin] at h
  | cons x xs ih =>
    intro blk rest h
    rw [popBin] at h
    by_cases hb : x.1 = bin
    · simp [hb] at h
      simp [← h.2]
    · simp [hb] at h
      cases hx : popBin bin xs with
      | none => rw [hx] at h; simp at h
      | some p =>
        obtain ⟨blk2, rest2⟩ := p
        rw [hx] at h
        simp at h
        have hrec := ih hx
        rw [← h.2]
        simp [← hrec]

theorem size_from_dims_eq_prod (dims : List Nat) :
    size_from_dims dims = dims.prod := by
  rw [size_from_dims, List.prod_eq_foldl]

theorem liveCount_cons (x : Handle) (l : List Handle) :
    liveCount (x :: l) = (if x.live = true then 1 else 0) + liveCount l := by
  simp only [liveCount, List.filter_cons]
  split <;> simp [Nat.add_comm]

theorem liveCount_append_live (hs : List Handle) (h : Handle)
    (hlive : h.live = true) :
    liveCount (hs ++ [h]) = liveCount hs + 1 := by
  simp [liveCount, List.filter_append, hlive]

theorem liveCount_set {hs : List Handle} {i : Nat} {h : Handle}
    (hget : hs[i]? = some h) (hlive : h.live = true) :
    liveCount (hs.set i { h with live := false }) + 1 = liveCount hs := by
  induction hs generalizing i with
  | nil => simp at hget
  | cons x xs ih =>
    cases i with
    | zero =>
      simp only [List.getElem?_cons_zero, Option.some.injEq] at hget
      subst hget
      simp [List.set, liveCount_cons, hlive]
      omega
    | succ j =>
      simp only [List.getElem?_cons_succ] at hget
      have hrec := ih hget
      simp only [List.set, liveCount_cons]
      omega

theorem liveCount_pos {hs : List Handle} {i : Nat} {h : Handle}
    (hget : hs[i]? = some h) (hlive : h.live = true) : 0 < liveCount hs := by
  have := liveCount_set hget hlive
  omega

/-- The pool-level part of the invariant: block accounting and the
context-dependency tracking. -/
def PInv (p : PoolState) : Prop :=
  p.held_blocks + p.active + p.freeCalls = p.nextBlock ∧
  (p.contextHeld = true ↔ 0 < p.held_blocks)

theorem pinv_pool_allocate (s : PoolState) (sz : Nat) (hp : PInv s) :
    PInv (pool_allocate s sz).2 ∧
    ((pool_allocate s sz).1 = none → (pool_allocate s sz).2.active = s.active) ∧
    (∀ h, (pool_allocate s sz).1 = some h →
      (pool_allocate s sz).2.active = s.active + 1 ∧ h.live = true) := by
  obtain ⟨hcnt, hctx⟩ := hp
  simp only [PoolState.held_blocks] at hcnt hctx
  cases hpop : popBin (bin_number sz) s.freeList with
  | some pr =>
    obtain ⟨blk, rest⟩ := pr
    have hlen : rest.length + 1 = s.freeList.length := popBin_length hpop
    cases rest with
    | nil =>
      simp only [List.length_nil] at hlen
      simp [pool_allocate, hpop, PInv, PoolState.held_blocks]
      omega
    | cons y ys =>
      simp only [List.length_cons] at hlen
      simp [pool_allocate, hpop, PInv, PoolState.held_blocks]
      constructor
      · omega
      · have : s.contextHeld = true := hctx.mpr (by omega)
        simp [this]
  | none =>
    cases hresp : s.responses with
    | nil =>
      simp [pool_allocate, hpop, backend_allocate, hresp, PInv,
        PoolState.held_blocks, hctx]
      omega
    | cons b rest =>
      cases b with
      | true =>
        simp [pool_allocate, hpop, backend_allocate, hresp, PInv,
          PoolState.held_blocks, hctx]
        omega
      | false =>
        cases rest with
        | nil =>
          simp [pool_allocate, hpop, backend_allocate, hresp, free_held,
            run_relief_hook, PInv, PoolState.held_blocks]
          omega
        | cons b2 rest2 =>
          cases b2 with
          | true =>
            simp [pool_allocate, hpop, backend_allocate, hresp, free_held,
              run_relief_hook, PInv, PoolState.held_blocks]
            omega
          | false =>
            simp [pool_allocate, hpop, backend_allocate, hresp, free_held,
              run_relief_hook, PInv, PoolState.held_blocks]
            omega

theorem pinv_pool_free (s : PoolState) (bin blk : Nat) (hp : PInv s)
    (hact : 0 < s.active) :
    PInv (pool_free s bin blk) ∧ (pool_free s bin blk).active + 1 = s.active := by
  obtain ⟨hcnt, hctx⟩ := hp
  simp only [PoolState.held_blocks] at hcnt hctx
  by_cases hh : s.holding
  · cases hfl : s.freeList with
    | nil =>
      simp [pool_free, hh, hfl, PInv, PoolState.held_blocks]
      simp [hfl] at hcnt
      omega
    | cons y ys =>
      have : s.contextHeld = true := hctx.mpr (by simp [hfl])
      simp [pool_free, hh, hfl, PInv, PoolState.held_blocks, this]
      simp [hfl] at hcnt
      omega
  · simp only [Bool.not_eq_true] at hh
    simp [pool_free, hh, PInv, PoolState.held_blocks, hctx]
    omega

theorem pinv_free_held (s : PoolState) (hp : PInv s) : PInv (free_held s) := by
  obtain ⟨hcnt, hctx⟩ := hp
  simp only [PoolState.held_blocks] at hcnt
  simp [free_held, PInv, PoolState.held_blocks]
  omega

theorem pinv_stop_holding (s : PoolState) (hp : PInv s) : PInv (stop_holding s) := by
  obtain ⟨hcnt, hctx⟩ := hp
  simp only [PoolState.held_blocks] at hcnt
  simp [stop_holding, PInv, PoolState.held_blocks]
  omega

theorem inv_step (s : SysState) (op : Op) (hinv : Inv s) : Inv (step s op) := by
  obtain ⟨hact, hcnt, hctx⟩ := hinv
  cases op with
  | alloc sz =>
    have hlem := pinv_pool_allocate s.pool sz ⟨hcnt, hctx⟩
    rcases hres : pool_allocate s.pool sz with ⟨oh, p⟩
    rw [hres] at hlem
    cases oh with
    | some h =>
      obtain ⟨hp, -, hsome⟩ := hlem
      obtain ⟨hpa, hplive⟩ := hsome h rfl
      have hpa2 : p.active = s.pool.active + 1 := hpa
      simp only [step, hres]
      refine ⟨?_, hp.1, hp.2⟩
      show p.active = liveCount (s.handles ++ [h])
      rw [liveCount_append_live s.handles h hplive]
      omega
    | none =>
      obtain ⟨hp, hnone, -⟩ := hlem
      have hpa2 : p.active = s.pool.active := hnone rfl
      simp only [step, hres]
      refine ⟨?_, hp.1, hp.2⟩
      show p.active = liveCount s.handles
      omega
  | release i =>
    cases hget : s.handles[i]? with
    | none =>
      simp only [step, hget]
      exact ⟨hact, hcnt, hctx⟩
    | some h =>
      by_cases hlive : h.live = true
      · have hfr : handle_free h s.pool =
            some ({ h with live := false }, pool_free s.pool h.bin h.block) := by
          simp [handle_free, hlive]
        have hpos : 0 < liveCount s.handles := liveCount_pos hget hlive
        have hact0 : 0 < s.pool.active := by omega
        have hfree := pinv_pool_free s.pool h.bin h.block ⟨hcnt, hctx⟩ hact0
        have hset := liveCount_set hget hlive
        simp only [step, hget, hfr]
        refine ⟨?_, hfree.1.1, hfree.1.2⟩
        show (pool_free s.pool h.bin h.block).active =
          liveCount (s.handles.set i { h with live := false })
        have := hfree.2
        omega
      · simp only [Bool.not_eq_true] at hlive
        simp only [step, hget, handle_free, hlive, Bool.false_eq_true,
          if_false]
        exact ⟨hact, hcnt, hctx⟩
  | freeHeld =>
    have hp := pinv_free_held s.pool ⟨hcnt, hctx⟩
    exact ⟨hact, hp.1, hp.2⟩
  | stopHolding =>
    have hp := pinv_stop_holding s.pool ⟨hcnt, hctx⟩
    exact ⟨hact, hp.1, hp.2⟩

theorem inv_run (s : SysState) (ops : List Op) (h : Inv s) : Inv (run s ops) := by
  induction ops generalizing s with
  | nil => exact h
  | cons op rest ih => exact ih (step s op) (inv_step s op h)

theorem inv_init (script : List Bool) : Inv (init script) := by
  refine ⟨rfl, rfl, ?_⟩
  simp [init, PoolState.held_blocks]

theorem pool_allocate_holding (s : PoolState) (sz : Nat) :
    (pool_allocate s sz).2.holding = s.holding := by
  cases hpop : popBin (bin_number sz) s.freeList with
  | some pr =>
    obtain ⟨blk, rest⟩ := pr
    simp only [pool_allocate, hpop]
    split <;> rfl
  | none =>
    cases hresp : s.responses with
    | nil => simp [pool_allocate, hpop, backend_allocate, hresp]
    | cons b rest =>
      cases b with
      | true => simp [pool_allocate, hpop, backend_allocate, hresp]
      | false =>
        cases rest with
        | nil =>
          simp [pool_allocate, hpop, backend_allocate, hresp, free_held,
            run_relief_hook]
        | cons b2 rest2 =>
          cases b2 <;>
            simp [pool_allocate, hpop, backend_allocate, hresp, free_held,
              run_relief_hook]

theorem pool_allocate_freeList_nil (s : PoolState) (sz : Nat)
    (hz : s.freeList = []) :
    (pool_allocate s sz).2.freeList = [] := by
  cases hresp : s.responses with
  | nil => simp [pool_allocate, popBin, backend_allocate, hresp, hz]
  | cons b rest =>
    cases b with
    | true => simp [pool_allocate, popBin, backend_allocate, hresp, hz]
    | false =>
      cases rest with
      | nil =>
        simp [pool_allocate, popBin, backend_allocate, hresp, hz, free_held,
          run_relief_hook]
      | cons b2 rest2 =>
        cases b2 <;>
          simp [pool_allocate, popBin, backend_allocate, hresp, hz, free_held,
            run_relief_hook]

theorem passthrough_step (s : SysState) (op : Op)
    (hh : s.pool.holding = false) (hz : s.pool.freeList = []) :
    (step s op).pool.holding = false ∧ (step s op).pool.freeList = [] := by
  cases op with
  | alloc sz =>
    rcases hres : pool_allocate s.pool sz with ⟨oh, p⟩
    have h1 : p.holding = s.pool.holding := by
      have := pool_allocate_holding s.pool sz
      rw [hres] at this
      exact this
    have h2 : p.freeList = [] := by
      have := pool_allocate_freeList_nil s.pool sz hz
      rw [hres] at this
      exact this
    cases oh <;> simp only [step, hres] <;> exact ⟨h1.trans hh, h2⟩
  | release i =>
    cases hget : s.handles[i]? with
    | none =>
      simp only [step, hget]
      exact ⟨hh, hz⟩
    | some h =>
      by_cases hlive : h.live = true
      · have hfr : handle_free h s.pool =
            some ({ h with live := false }, pool_free s.pool h.bin h.block) := by
          simp [handle_free, hlive]
        simp only [step, hget, hfr]
        constructor <;> simp [pool_free, hh, hz]
      · simp only [Bool.not_eq_true] at hlive
        simp only [step, hget, handle_free, hlive, Bool.false_eq_true, if_false]
        exact ⟨hh, hz⟩
  | freeHeld =>
    exact ⟨hh, rfl⟩
  | stopHolding =>
    exact ⟨rfl, rfl⟩

theorem passthrough_run (s : SysState) (ops : List Op)
    (hh : s.pool.holding = false) (hz : s.pool.freeList = []) :
    (run s ops).pool.holding = false ∧ (run s ops).pool.freeList = [] := by
  induction ops generalizing s with
  | nil => exact ⟨hh, hz⟩
  | cons op rest ih =>
    have h1 := passthrough_step s op hh hz
    exact ih (step s op) h1.1 h1.2

/-- The system state reached by running `ops0` from a fresh pool, calling
`stop_holding`, and then running `ops1`. -/
def after_stop (script : List Bool) (ops0 ops1 : List Op) : SysState :=
  run (step (run (init script) ops0) Op.stopHolding) ops1

/- ### Claim theorems -/

/-- C2: for every requested size `s`, `alloc_size (bin_number s) ≥ s` — the
quantized allocation size of the bin `s` maps to covers the request. -/
theorem alloc_size_covers_request (s : Nat) : s ≤ alloc_size (bin_number s) :=
  Nat.le_pow_clog one_lt_two s

/-- C1: when the bin's cache is empty and the backend fails twice in a row,
`allocate` performs the reclaim-and-retry protocol exactly once — it frees
every cached block across every bin, invokes the pressure-relief hook once,
retries the backend allocate a single time (two backend calls in total,
never a third) — and propagates OutOfResource (`none`), leaving
`held_blocks` at 0 and `active_blocks` unchanged. -/
theorem allocate_double_failure_propagates
    (s : PoolState) (sz : Nat) (rest : List Bool)
    (hmiss : popBin (bin_number sz) s.freeList = none)
    (hresp : s.responses = false :: false :: rest) :
    (pool_allocate s sz).1 = none ∧
    (pool_allocate s sz).2.held_blocks = 0 ∧
    (pool_allocate s sz).2.active_blocks = s.active_blocks ∧
    (pool_allocate s sz).2.allocCalls = s.allocCalls + 2 ∧
    (pool_allocate s sz).2.reliefCalls = s.reliefCalls + 1 ∧
    (pool_allocate s sz).2.freeCalls = s.freeCalls + s.held_blocks ∧
    (pool_allocate s sz).2.responses = rest := by
  simp [pool_allocate, hmiss, backend_allocate, hresp, free_held,
        run_relief_hook, PoolState.held_blocks, PoolState.active_blocks]

/-- Witness for C1: a pool with three active blocks, an empty cache and a
backend scripted to fail twice. -/
theorem allocate_double_failure_propagates_witness :
    (pool_allocate ⟨[], 3, true, false, [false, false], 5, 7, 2, 1⟩ 4).1 = none ∧
    (pool_allocate ⟨[], 3, true, false, [false, false], 5, 7, 2, 1⟩ 4).2.held_blocks = 0 ∧
    (pool_allocate ⟨[], 3, true, false, [false, false], 5, 7, 2, 1⟩ 4).2.active_blocks =
      (⟨[], 3, true, false, [false, false], 5, 7, 2, 1⟩ : PoolState).active_blocks ∧
    (pool_allocate ⟨[], 3, true, false, [false, false], 5, 7, 2, 1⟩ 4).2.allocCalls = 7 + 2 ∧
    (pool_allocate ⟨[], 3, true, false, [false, false], 5, 7, 2, 1⟩ 4).2.reliefCalls = 1 + 1 ∧
    (pool_allocate ⟨[], 3, true, false, [false, false], 5, 7, 2, 1⟩ 4).2.freeCalls =
      2 + (⟨[], 3, true, false, [false, false], 5, 7, 2, 1⟩ : PoolState).held_blocks ∧
    (pool_allocate ⟨[], 3, true, false, [false, false], 5, 7, 2, 1⟩ 4).2.responses = [] :=
  allocate_double_failure_propagates
    ⟨[], 3, true, false, [false, false], 5, 7, 2, 1⟩ 4 [] (by simp [popBin]) rfl

/-- C3: when the free list of `bin_number sz` is non-empty, `allocate` pops
and reuses a cached block with no backend allocate call, records the
handle's size as `alloc_size bin` (not the requested size), decrements
`held_blocks` by one and increments `active_blocks` by one. -/
theorem allocate_cache_hit_reuses_block
    (s : PoolState) (sz blk : Nat) (rest : List (Nat × Nat))
    (hpop : popBin (bin_number sz) s.freeList = some (blk, rest)) :
    ∃ h : Handle,
      (pool_allocate s sz).1 = some h ∧
      h.block = blk ∧
      h.live = true ∧
      Handle.size h = alloc_size (bin_number sz) ∧
      (pool_allocate s sz).2.allocCalls = s.allocCalls ∧
      (pool_allocate s sz).2.held_blocks + 1 = s.held_blocks ∧
      (pool_allocate s sz).2.active_blocks = s.active_blocks + 1 := by
  have hlen := popBin_length hpop
  refine ⟨⟨blk, bin_number sz, true⟩, ?_⟩
  simp only [pool_allocate, hpop, Handle.size, PoolState.held_blocks,
    PoolState.active_blocks]
  split <;> simp_all [PoolState.held_blocks]

/-- Witness for C3: a pool caching exactly one block in the bin of the
requested size 200. -/
theorem allocate_cache_hit_reuses_block_witness :
    ∃ h : Handle,
      (pool_allocate ⟨[(bin_number 200, 7)], 0, true, true, [], 1, 1, 0, 0⟩ 200).1 = some h ∧
      h.block = 7 ∧
      h.live = true ∧
      Handle.size h = alloc_size (bin_number 200) ∧
      (pool_allocate ⟨[(bin_number 200, 7)], 0, true, true, [], 1, 1, 0, 0⟩ 200).2.allocCalls = 1 ∧
      (pool_allocate ⟨[(bin_number 200, 7)], 0, true, true, [], 1, 1, 0, 0⟩ 200).2.held_blocks + 1 =
        (⟨[(bin_number 200, 7)], 0, true, true, [], 1, 1, 0, 0⟩ : PoolState).held_blocks ∧
      (pool_allocate ⟨[(bin_number 200, 7)], 0, true, true, [], 1, 1, 0, 0⟩ 200).2.active_blocks = 0 + 1 :=
  allocate_cache_hit_reuses_block
    ⟨[(bin_number 200, 7)], 0, true, true, [], 1, 1, 0, 0⟩ 200 7 []
    (by simp [popBin])

/-- C4: releasing a live handle exactly once increments `held_blocks` by one
while holding (or frees the block immediately — one backend free — under
pass-through mode), decrements `active_blocks` by one, and kills the handle;
a second release of the now-dead handle is rejected (`none`) rather than
performed again. -/
theorem pooled_allocation_single_release
    (h : Handle) (s : PoolState)
    (hlive : h.live = true) (hact : 0 < s.active) :
    ∃ (h2 : Handle) (s2 : PoolState),
      handle_free h s = some (h2, s2) ∧
      h2.live = false ∧
      s2.active_blocks + 1 = s.active_blocks ∧
      (s.holding = true →
        s2.held_blocks = s.held_blocks + 1 ∧ s2.freeCalls = s.freeCalls) ∧
      (s.holding = false →
        s2.freeCalls = s.freeCalls + 1 ∧ s2.held_blocks = s.held_blocks) ∧
      handle_free h2 s2 = none := by
  refine ⟨{ h with live := false }, pool_free s h.bin h.block, ?_, ?_, ?_, ?_, ?_, ?_⟩
  · simp [handle_free, hlive]
  · rfl
  · by_cases hh : s.holding <;>
      simp [pool_free, hh, PoolState.active_blocks] <;> omega
  · intro hh
    simp [pool_free, hh, PoolState.held_blocks]
  · intro hh
    simp [pool_free, hh, PoolState.held_blocks]
  · simp [handle_free]

/-- Witness for C4: a live handle over a holding pool with one active
block. -/
theorem pooled_allocation_single_release_witness :
    ∃ (h2 : Handle) (s2 : PoolState),
      handle_free ⟨5, 2, true⟩ ⟨[], 1, true, false, [], 1, 1, 0, 0⟩ = some (h2, s2) ∧
      h2.live = false ∧
      s2.active_blocks + 1 =
        (⟨[], 1, true, false, [], 1, 1, 0, 0⟩ : PoolState).active_blocks ∧
      ((⟨[], 1, true, false, [], 1, 1, 0, 0⟩ : PoolState).holding = true →
        s2.held_blocks =
          (⟨[], 1, true, false, [], 1, 1, 0, 0⟩ : PoolState).held_blocks + 1 ∧
        s2.freeCalls = 0) ∧
      ((⟨[], 1, true, false, [], 1, 1, 0, 0⟩ : PoolState).holding = false →
        s2.freeCalls = 0 + 1 ∧
        s2.held_blocks = (⟨[], 1, true, false, [], 1, 1, 0, 0⟩ : PoolState).held_blocks) ∧
      handle_free h2 s2 = none :=
  pooled_allocation_single_release ⟨5, 2, true⟩ ⟨[], 1, true, false, [], 1, 1, 0, 0⟩
    rfl (by decide)

/-- C5: across every sequence of pool operations from a fresh pool,
`held_blocks + active_blocks` accounts exactly for the blocks obtained from
the backend and not yet returned to it: cached blocks plus active blocks
plus backend-freed blocks equal the number of blocks the backend ever
handed out, so each outstanding block is counted exactly once. -/
theorem held_plus_active_accounts_backend_blocks
    (script : List Bool) (ops : List Op) :
    (run (init script) ops).pool.held_blocks +
      (run (init script) ops).pool.active_blocks +
      (run (init script) ops).pool.freeCalls =
      (run (init script) ops).pool.nextBlock :=
  (inv_run (init script) ops (inv_init script)).2.1

/-- C7: `stop_holding` frees every currently cached block immediately and
irreversibly switches the pool to pass-through mode: after it, under any
further sequence of operations, the pool is still in pass-through mode and
`held_blocks` is still 0 (it never caches again), and releasing any live
handle then frees its block straight back to the backend (one backend free)
instead of caching it. -/
theorem stop_holding_irreversible
    (script : List Bool) (ops0 ops1 : List Op) :
    (after_stop script ops0 []).pool.held_blocks = 0 ∧
    (after_stop script ops0 []).pool.freeCalls =
      (run (init script) ops0).pool.freeCalls +
        (run (init script) ops0).pool.held_blocks ∧
    (after_stop script ops0 ops1).pool.holding = false ∧
    (after_stop script ops0 ops1).pool.held_blocks = 0 ∧
    (∀ i h, (after_stop script ops0 ops1).handles[i]? = some h →
      h.live = true →
      (step (after_stop script ops0 ops1) (Op.release i)).pool.freeCalls =
        (after_stop script ops0 ops1).pool.freeCalls + 1 ∧
      (step (after_stop script ops0 ops1) (Op.release i)).pool.held_blocks = 0) := by
  have h0 : (step (run (init script) ops0) Op.stopHolding).pool.holding = false := rfl
  have hz : (step (run (init script) ops0) Op.stopHolding).pool.freeList = [] := rfl
  have hrun := passthrough_run _ ops1 h0 hz
  have h1 : (after_stop script ops0 ops1).pool.holding = false := hrun.1
  have h2 : (after_stop script ops0 ops1).pool.freeList = [] := hrun.2
  refine ⟨rfl, rfl, h1, ?_, ?_⟩
  · show (after_stop script ops0 ops1).pool.freeList.length = 0
    rw [h2]
    rfl
  · intro i h hget hlive
    have hfr : handle_free h (after_stop script ops0 ops1).pool =
        some ({ h with live := false },
          pool_free (after_stop script ops0 ops1).pool h.bin h.block) := by
      simp [handle_free, hlive]
    constructor
    · simp only [step, hget, hfr]
      show (pool_free (after_stop script ops0 ops1).pool h.bin h.block).freeCalls =
        (after_stop script ops0 ops1).pool.freeCalls + 1
      simp [pool_free, h1]
    · simp only [step, hget, hfr]
      show (pool_free (after_stop script ops0 ops1).pool h.bin h.block).freeList.length = 0
      simp [pool_free, h1, h2]

/-- Witness for C7 at the empty script and empty operation lists. -/
theorem stop_holding_irreversible_witness :
    (after_stop [] [] []).pool.held_blocks = 0 ∧
    (after_stop [] [] []).pool.freeCalls =
      (run (init []) []).pool.freeCalls + (run (init []) []).pool.held_blocks ∧
    (after_stop [] [] []).pool.holding = false ∧
    (after_stop [] [] []).pool.held_blocks = 0 ∧
    (∀ i h, (after_stop [] [] []).handles[i]? = some h →
      h.live = true →
      (step (after_stop [] [] []) (Op.release i)).pool.freeCalls =
        (after_stop [] [] []).pool.freeCalls + 1 ∧
      (step (after_stop [] [] []) (Op.release i)).pool.held_blocks = 0) :=
  stop_holding_irreversible [] [] []

/-- C8: in every reachable state of a context-bound pool, the context
keep-alive dependency is held exactly while the pool caches at least one
block — it is acquired on the transition to the first cached block and
released when the last cached block leaves the cache, so holding any
cached block implies holding the context alive. -/
theorem context_dependency_tracks_held_blocks
    (script : List Bool) (ops : List Op) :
    ((run (init script) ops).pool.contextHeld = true ↔
      0 < (run (init script) ops).pool.held_blocks) :=
  (inv_run (init script) ops (inv_init script)).2.2

/-- C6: `free_held` drives `held_blocks` to 0, issues exactly one backend
free per previously cached block, and leaves `active_blocks` (and the
backend allocate-call count) unchanged. -/
theorem free_held_drains_cache (s : PoolState) :
    (free_held s).held_blocks = 0 ∧
    (free_held s).freeCalls = s.freeCalls + s.held_blocks ∧
    (free_held s).active_blocks = s.active_blocks ∧
    (free_held s).allocCalls = s.allocCalls := by
  simp [free_held, PoolState.held_blocks, PoolState.active_blocks]

/-- C9: `host_pool_allocate` called with an order specifier that is neither
C order nor Fortran order fails with the "unrecognized order specifier"
error instead of defaulting to a supported order. -/
theorem host_allocate_rejects_unknown_order
    (elsize : Nat) (dims : List Nat) (order : NpyOrder)
    (hc : order ≠ NpyOrder.corder) (hf : order ≠ NpyOrder.fortranorder) :
    host_pool_allocate elsize dims order =
      Except.error "unrecognized order specifier" := by
  simp [host_pool_allocate, host_order_flags, hc, hf]

/-- Witness for C9 at the concrete order `anyorder`. -/
theorem host_allocate_rejects_unknown_order_witness :
    host_pool_allocate 4 [2, 3] NpyOrder.anyorder =
      Except.error "unrecognized order specifier" :=
  host_allocate_rejects_unknown_order 4 [2, 3] NpyOrder.anyorder
    (by decide) (by decide)

/-- Counterexample to C10 as stated: a successful call with 4-byte elements
and shape (1073741824,) requests 0 bytes from the pool, because
`elsize * size_from_dims(dims)` is 2^32 and wraps to 0 in
`host_allocator::size_type` (unsigned int), while the exact product is
non-zero. -/
theorem host_allocate_bytes_exact_fails_at_large_shape :
    host_pool_allocate 4 [1073741824] NpyOrder.corder =
      Except.ok ⟨0, NPY_CARRAY⟩ ∧
    4 * ([1073741824] : List Nat).prod ≠ 0 := by
  constructor
  · rfl
  · decide

/-- C10 (amended): every successful `host_pool_allocate` requests from the
pool `elsize` times the product of the shape's dimensions, reduced modulo
`2 ^ 32` (the size is passed as `host_allocator::size_type`, an unsigned
int); whenever that product is below `2 ^ 32` the requested byte size is
exactly the product. -/
theorem host_allocate_bytes_mod_size_type
    (elsize : Nat) (dims : List Nat) (order : NpyOrder) (r : HostAllocRequest)
    (h : host_pool_allocate elsize dims order = Except.ok r) :
    r.bytes = elsize * dims.prod % 2 ^ 32 ∧
    (elsize * dims.prod < 2 ^ 32 → r.bytes = elsize * dims.prod) := by
  rw [host_pool_allocate] at h
  cases ho : host_order_flags order with
  | error e => rw [ho] at h; simp at h
  | ok f =>
    rw [ho] at h
    simp at h
    rw [← h]
    constructor
    · simp [size_from_dims_eq_prod]
    · intro hlt
      simp only [size_from_dims_eq_prod]
      exact Nat.mod_eq_of_lt hlt

/-- Witness for the amended C10: shape (2, 3) with 4-byte elements in C
order requests 24 bytes, which is below `2 ^ 32` and hence exact. -/
theorem host_allocate_bytes_mod_size_type_witness :
    (⟨24, NPY_CARRAY⟩ : HostAllocRequest).bytes =
      4 * ([2, 3] : List Nat).prod % 2 ^ 32 ∧
    (4 * ([2, 3] : List Nat).prod < 2 ^ 32 →
      (⟨24, NPY_CARRAY⟩ : HostAllocRequest).bytes = 4 * ([2, 3] : List Nat).prod) :=
  host_allocate_bytes_mod_size_type 4 [2, 3] NpyOrder.corder
    ⟨24, NPY_CARRAY⟩ rfl

end PycudaMempool
